import Mathlib

/-!
Verification development for the Academic Outreach Assistant repository.

The repository is a browser wizard (steps Input, Select, Review) around three
request/response operations against a generative-AI service: resume-fact
extraction, contact discovery and per-contact email drafting.  We embed the
response-processing logic of the three gateway functions and the state-changing
handlers of the application component as pure Lean functions.  Each gateway
function is parameterised by the response text it would receive from the
service; each handler is a function on an explicit application state.

Conventions of the embedding:
  * JavaScript strings are modelled as `List Char`; the user-facing `String`
    wrappers appear only where a claim quantifies over textual input.
  * `JSON.parse` is modelled by an executable recursive-descent parser
    (`Json.parse`) over the JSON grammar accepted by JavaScript: the
    literals `null`, `true`, `false`, numbers, strings with escape
    sequences, arrays and objects, with the four JSON whitespace
    characters allowed between tokens.  Numeric literals are kept as their
    character source, since no behaviour of the program depends on numeric
    values beyond zero-testing for truthiness.
  * A JavaScript value obtained from `JSON.parse` is a `Json`; `undefined`
    (the result of reading an absent property) is modelled by `Option Json`
    with `none` for `undefined`.
  * Fallible operations return `Except String`, the error payload standing
    for the thrown `Error` message (apostrophes of the original message
    texts are omitted).
-/

/-- The four characters treated as whitespace by the JSON grammar, which are
also among the characters removed by JavaScript `String.prototype.trim` and
matched by the regex class `\s`.  The additional members of those classes
(form feed, vertical tab, unicode spaces) do not occur in any input
considered here; we also include form feed and vertical tab for closeness. -/
def isJsWs (c : Char) : Bool :=
  c = ' ' ∨ c = '\t' ∨ c = '\n' ∨ c = '\r' ∨ c = '\x0b' ∨ c = '\x0c'

/-- Drop leading JSON/JS whitespace. -/
def skipWs : List Char → List Char
  | [] => []
  | c :: rest => if isJsWs c then skipWs rest else c :: rest

/-- JavaScript `String.prototype.trim`: drop whitespace at both ends. -/
def trimChars (cs : List Char) : List Char :=
  ((cs.dropWhile isJsWs).reverse.dropWhile isJsWs).reverse

/-- The effect of `str.replace(/^```json\s*|```$/g, '')` in `cleanJsonString`
(src/unnamed/part_000, line 12): remove a leading literal markdown fence
opener made of three backticks and the word json together with the greedy run
of whitespace after it, and remove a trailing three-backtick fence closer. -/
def stripFences (cs : List Char) : List Char :=
  let s1 := if cs.take 7 = "```json".data then (cs.drop 7).dropWhile isJsWs else cs
  if 3 ≤ s1.length ∧ s1.drop (s1.length - 3) = "```".data then s1.take (s1.length - 3)
  else s1

/-- Index of the first occurrence of a character, counted from position 0. -/
def idxFrom (c : Char) : List Char → Option Nat
  | [] => none
  | a :: rest => if a = c then some 0 else (idxFrom c rest).map (· + 1)

/-- JavaScript `String.prototype.indexOf` for a single character: the index of
its first occurrence, or `-1` when absent. -/
def jsIndexOf (cs : List Char) (c : Char) : Int :=
  match idxFrom c cs with
  | some i => (i : Int)
  | none => -1

/-- JavaScript `String.prototype.lastIndexOf` for a single character: the index
of its last occurrence, or `-1` when absent. -/
def jsLastIndexOf (cs : List Char) (c : Char) : Int :=
  match idxFrom c cs.reverse with
  | some i => (cs.length : Int) - 1 - (i : Int)
  | none => -1

/-- The start-position computation of `cleanJsonString`
(src/unnamed/part_000, lines 15-21): the index of the first opening bracket
or brace, `-1` when neither occurs.  The bracket-extraction phase
(`extractJson` below, lines 14-32 of the source) returns the substring from
this position to the last closing bracket or brace inclusively, and the input
unchanged when no opening bracket exists or the chosen end precedes the
chosen start. -/
def startIdx (cleaned : List Char) : Int :=
  let firstOpen := jsIndexOf cleaned '['
  let firstCurly := jsIndexOf cleaned '\x7b'
  if firstOpen = -1 then firstCurly
  else if firstCurly = -1 then firstOpen
  else min firstOpen firstCurly

/-- `Math.max(cleaned.lastIndexOf(...), cleaned.lastIndexOf(...))` of lines
25-28 of the source. -/
def stopIdx (cleaned : List Char) : Int :=
  max (jsLastIndexOf cleaned ']') (jsLastIndexOf cleaned '\x7d')

def extractJson (cleaned : List Char) : List Char :=
  let start := startIdx cleaned
  if start = -1 then cleaned
  else
    let stop := stopIdx cleaned
    if stop = -1 ∨ stop < start then cleaned
    else (cleaned.drop start.toNat).take (stop.toNat + 1 - start.toNat)

/-- `cleanJsonString` (src/unnamed/part_000, lines 10-33): strip markdown
fences, trim, then extract the bracketed substring. -/
def cleanJson (cs : List Char) : List Char :=
  extractJson (trimChars (stripFences cs))

/-- `cleanJsonString` at `String` level. -/
def cleanJsonString (s : String) : String :=
  String.mk (cleanJson s.data)

/-- Runtime JSON values as produced by `JSON.parse`.  Numeric literals keep
their source characters; object member lists keep duplicates in source
order. -/
inductive Json where
  | null : Json
  | bool (b : Bool) : Json
  | num (lit : List Char) : Json
  | str (s : List Char) : Json
  | arr (elems : List Json) : Json
  | obj (fields : List (List Char × Json)) : Json

mutual

/-- Decidable equality on `Json`, written by hand because the deriving
handler does not treat the nested `List` occurrences. -/
def Json.decEq : (a b : Json) → Decidable (a = b)
  | .null, .null => isTrue rfl
  | .bool a, .bool b =>
    if h : a = b then isTrue (by rw [h]) else isFalse (by simp [h])
  | .num a, .num b =>
    if h : a = b then isTrue (by rw [h]) else isFalse (by simp [h])
  | .str a, .str b =>
    if h : a = b then isTrue (by rw [h]) else isFalse (by simp [h])
  | .arr xs, .arr ys =>
    match Json.decEqList xs ys with
    | isTrue h => isTrue (by rw [h])
    | isFalse h => isFalse (by simp [h])
  | .obj xs, .obj ys =>
    match Json.decEqFields xs ys with
    | isTrue h => isTrue (by rw [h])
    | isFalse h => isFalse (by simp [h])
  | .null, .bool _ | .null, .num _ | .null, .str _ | .null, .arr _ | .null, .obj _ =>
    isFalse (fun h => Json.noConfusion h)
  | .bool _, .null | .bool _, .num _ | .bool _, .str _ | .bool _, .arr _ | .bool _, .obj _ =>
    isFalse (fun h => Json.noConfusion h)
  | .num _, .null | .num _, .bool _ | .num _, .str _ | .num _, .arr _ | .num _, .obj _ =>
    isFalse (fun h => Json.noConfusion h)
  | .str _, .null | .str _, .bool _ | .str _, .num _ | .str _, .arr _ | .str _, .obj _ =>
    isFalse (fun h => Json.noConfusion h)
  | .arr _, .null | .arr _, .bool _ | .arr _, .num _ | .arr _, .str _ | .arr _, .obj _ =>
    isFalse (fun h => Json.noConfusion h)
  | .obj _, .null | .obj _, .bool _ | .obj _, .num _ | .obj _, .str _ | .obj _, .arr _ =>
    isFalse (fun h => Json.noConfusion h)

/-- Decidable equality on lists of `Json`. -/
def Json.decEqList : (xs ys : List Json) → Decidable (xs = ys)
  | [], [] => isTrue rfl
  | [], _ :: _ => isFalse (fun h => List.noConfusion h)
  | _ :: _, [] => isFalse (fun h => List.noConfusion h)
  | x :: xs, y :: ys =>
    match Json.decEq x y with
    | isFalse h => isFalse (by simp [h])
    | isTrue h =>
      match Json.decEqList xs ys with
      | isTrue h2 => isTrue (by rw [h, h2])
      | isFalse h2 => isFalse (by simp [h2])

/-- Decidable equality on object member lists. -/
def Json.decEqFields : (xs ys : List (List Char × Json)) → Decidable (xs = ys)
  | [], [] => isTrue rfl
  | [], _ :: _ => isFalse (fun h => List.noConfusion h)
  | _ :: _, [] => isFalse (fun h => List.noConfusion h)
  | (k, v) :: xs, (k2, v2) :: ys =>
    if hk : k = k2 then
      match Json.decEq v v2 with
      | isFalse h => isFalse (by simp [h])
      | isTrue h =>
        match Json.decEqFields xs ys with
        | isTrue h2 => isTrue (by rw [hk, h, h2])
        | isFalse h2 => isFalse (by simp [h2])
    else isFalse (by simp [hk])

end

instance : DecidableEq Json := Json.decEq

/-- Hexadecimal digit test (for `\u` escapes). -/
def isHexDigitC (c : Char) : Bool :=
  c.isDigit ∨ ('a' ≤ c ∧ c ≤ 'f') ∨ ('A' ≤ c ∧ c ≤ 'F')

/-- Parse the body of a JSON string literal after its opening quote, returning
the decoded characters and the remainder after the closing quote.  Escape
sequences follow the JSON grammar; raw control characters are rejected.  A
`\u` escape denoting an invalid scalar value (a lone surrogate) is mapped by
`Char.ofNat` to the null character, an approximation irrelevant to every
input considered in this development. -/
def parseStringBody : Nat → List Char → Option (List Char × List Char)
  | 0, _ => none
  | _, [] => none
  | fuel + 1, c :: rest =>
    if c = '"' then some ([], rest)
    else if c = '\\' then
      match rest with
      | [] => none
      | e :: rest2 =>
        let cont (d : Char) (r : List Char) : Option (List Char × List Char) :=
          (parseStringBody fuel r).map (fun p => (d :: p.1, p.2))
        if e = '"' then cont '"' rest2
        else if e = '\\' then cont '\\' rest2
        else if e = '/' then cont '/' rest2
        else if e = 'b' then cont '\x08' rest2
        else if e = 'f' then cont '\x0c' rest2
        else if e = 'n' then cont '\n' rest2
        else if e = 'r' then cont '\r' rest2
        else if e = 't' then cont '\t' rest2
        else if e = 'u' then
          match rest2 with
          | h1 :: h2 :: h3 :: h4 :: rest3 =>
            if isHexDigitC h1 ∧ isHexDigitC h2 ∧ isHexDigitC h3 ∧ isHexDigitC h4 then
              let v (h : Char) : Nat :=
                if h.isDigit then h.toNat - 48
                else if h.toNat ≥ 97 then h.toNat - 87 else h.toNat - 55
              cont (Char.ofNat (((v h1 * 16 + v h2) * 16 + v h3) * 16 + v h4)) rest3
            else none
          | _ => none
        else none
    else if c.toNat < 32 then none
    else (parseStringBody fuel rest).map (fun p => (c :: p.1, p.2))

/-- Parse a JSON numeric literal `-?(0|[1-9][0-9]*)(\.[0-9]+)?([eE][+-]?[0-9]+)?`
from the head of the input, returning its source characters and the rest. -/
def parseNumberLit (cs : List Char) : Option (List Char × List Char) :=
  let (neg, cs1) : List Char × List Char :=
    match cs with
    | '-' :: r => (['-'], r)
    | _ => ([], cs)
  match cs1 with
  | [] => none
  | d :: r =>
    if ¬ d.isDigit then none
    else
      let (intPart, r1) : List Char × List Char :=
        if d = '0' then (['0'], r)
        else (d :: r.takeWhile Char.isDigit, r.dropWhile Char.isDigit)
      let fracStep : Option (List Char × List Char) :=
        match r1 with
        | '.' :: r2 =>
          let ds := r2.takeWhile Char.isDigit
          if ds = [] then none
          else some ('.' :: ds, r2.dropWhile Char.isDigit)
        | _ => some ([], r1)
      match fracStep with
      | none => none
      | some (fracPart, r3) =>
        let expStep : Option (List Char × List Char) :=
          match r3 with
          | e :: r4 =>
            if e = 'e' ∨ e = 'E' then
              let (sgn, r5) : List Char × List Char :=
                match r4 with
                | '+' :: r5 => (['+'], r5)
                | '-' :: r5 => (['-'], r5)
                | _ => ([], r4)
              let ds := r5.takeWhile Char.isDigit
              if ds = [] then none
              else some (e :: (sgn ++ ds), r5.dropWhile Char.isDigit)
            else some ([], r3)
          | [] => some ([], r3)
        match expStep with
        | none => none
        | some (expPart, r6) => some (neg ++ intPart ++ fracPart ++ expPart, r6)

mutual

/-- Fueled recursive-descent parser for one JSON value, after which the
remainder of the input is returned.  With fuel exceeding the input length the
fuel never runs out, since every recursive call consumes at least one input
character first. -/
def parseValueF : Nat → List Char → Option (Json × List Char)
  | 0, _ => none
  | fuel + 1, cs =>
    match skipWs cs with
    | [] => none
    | c :: rest =>
      if c = 'n' then
        if rest.take 3 = "ull".data then some (Json.null, rest.drop 3) else none
      else if c = 't' then
        if rest.take 3 = "rue".data then some (Json.bool true, rest.drop 3) else none
      else if c = 'f' then
        if rest.take 4 = "alse".data then some (Json.bool false, rest.drop 4) else none
      else if c = '"' then
        (parseStringBody (rest.length + 1) rest).map (fun p => (Json.str p.1, p.2))
      else if c = '[' then
        match skipWs rest with
        | ']' :: r2 => some (Json.arr [], r2)
        | r2 => (parseElemsF fuel r2).map (fun p => (Json.arr p.1, p.2))
      else if c = '\x7b' then
        match skipWs rest with
        | '\x7d' :: r2 => some (Json.obj [], r2)
        | r2 => (parseMembersF fuel r2).map (fun p => (Json.obj p.1, p.2))
      else if c = '-' ∨ c.isDigit then
        (parseNumberLit (c :: rest)).map (fun p => (Json.num p.1, p.2))
      else none

/-- Parse the comma-separated elements of a non-empty array up to and past the
closing bracket. -/
def parseElemsF : Nat → List Char → Option (List Json × List Char)
  | 0, _ => none
  | fuel + 1, cs =>
    match parseValueF fuel cs with
    | none => none
    | some (v, r) =>
      match skipWs r with
      | ',' :: r2 => (parseElemsF fuel r2).map (fun p => (v :: p.1, p.2))
      | ']' :: r2 => some ([v], r2)
      | _ => none

/-- Parse the comma-separated members of a non-empty object up to and past the
closing brace. -/
def parseMembersF : Nat → List Char → Option (List (List Char × Json) × List Char)
  | 0, _ => none
  | fuel + 1, cs =>
    match skipWs cs with
    | '"' :: r =>
      match parseStringBody (r.length + 1) r with
      | none => none
      | some (k, r2) =>
        match skipWs r2 with
        | ':' :: r3 =>
          match parseValueF fuel r3 with
          | none => none
          | some (v, r4) =>
            match skipWs r4 with
            | ',' :: r5 => (parseMembersF fuel r5).map (fun p => ((k, v) :: p.1, p.2))
            | '\x7d' :: r5 => some ([(k, v)], r5)
            | _ => none
        | _ => none
    | _ => none

end

/-- `JSON.parse` on a whole text: one JSON value with only whitespace around
it, `none` on any syntax error. -/
def Json.parse (cs : List Char) : Option Json :=
  match parseValueF (cs.length + 1) cs with
  | some (v, rest) => if skipWs rest = [] then some v else none
  | none => none

/-- Last-occurrence lookup in an object member list: `JSON.parse` builds a
JavaScript object by assigning members in source order, so a duplicated key
holds the value of its last occurrence. -/
def lookupLast (k : List Char) : List (List Char × Json) → Option Json
  | [] => none
  | (k2, v) :: rest =>
    match lookupLast k rest with
    | some w => some w
    | none => if k2 = k then some v else none

/-- JavaScript property read `j.k` on a value produced by `JSON.parse`,
returning `none` for `undefined`.  Reading a property of a non-object
primitive yields `undefined` (never an own JSON member); reading on `null`
throws and is handled separately at each use site, mirroring the source. -/
def getField (j : Json) (k : List Char) : Option Json :=
  match j with
  | .obj fields => lookupLast k fields
  | _ => none

/-- Whether a numeric literal denotes exactly zero: sign, decimal point and
exponent do not matter, only that every mantissa digit is `0`.  (JavaScript
additionally rounds magnitudes below the smallest subnormal double to zero;
no such literal occurs in this development.) -/
def isZeroNumLit (lit : List Char) : Bool :=
  (lit.takeWhile (fun c => ¬ (c = 'e' ∨ c = 'E'))).all
    (fun c => ¬ c.isDigit ∨ c = '0')

/-- JavaScript truthiness of a `JSON.parse` value. -/
def truthy : Json → Bool
  | .null => false
  | .bool b => b
  | .num lit => ¬ isZeroNumLit lit
  | .str s => ¬ s = []
  | .arr _ => true
  | .obj _ => true

/-- JavaScript truthiness of a possibly-`undefined` value. -/
def truthyOpt : Option Json → Bool
  | none => false
  | some j => truthy j

/-- The JavaScript default idiom `v || d`: the value when truthy, otherwise
the default. -/
def jsOr (v : Option Json) (d : Json) : Json :=
  match v with
  | some j => if truthy j then j else d
  | none => d

/-- The raw uploaded file handed to `parseResume`
(src/unnamed/part_000, lines 313-317). -/
structure RawFile where
  name : String
  mimeType : String
  data : String
deriving DecidableEq

/-- The runtime shape built by `parseResume` (types.ts `ResumeData` plus the
raw file fields).  The three analysed fields hold whatever JSON values the
response supplied or their defaults, since the source performs no shape
validation on them. -/
structure ResumeData where
  name : String
  mimeType : String
  data : String
  skills : Json
  educationLevel : Json
  projects : Json
deriving DecidableEq

/-- Error message constants standing for the thrown `Error` texts.  The claims
never inspect the message text, only that a single error is reported. -/
def resumeParseErrMsg : String := "resume analysis response was not valid JSON"

def contactsErrMsg : String := "model response was not valid JSON"

def emailGenErrMsg : String := "email generation response was not valid JSON"

/-- Response processing of `parseResume` (src/unnamed/part_000, lines 68-80):
clean the response text, `JSON.parse` it, and build the record, defaulting
each missing or falsy analysed field.  A parse failure throws; so does a
response that parses to `null`, because the subsequent property reads throw a
`TypeError` that the same `catch` turns into the translation error. -/
def parseResume (resume : RawFile) (responseText : List Char) : Except String ResumeData :=
  match Json.parse (cleanJson responseText) with
  | none => .error resumeParseErrMsg
  | some j =>
    if j = Json.null then .error resumeParseErrMsg
    else
      .ok
        { name := resume.name
          mimeType := resume.mimeType
          data := resume.data
          skills := jsOr (getField j "skills".data) (Json.arr [])
          educationLevel := jsOr (getField j "educationLevel".data) (Json.str "Not found".data)
          projects := jsOr (getField j "projects".data) (Json.arr []) }

/-- The element check of `findContacts` (src/unnamed/part_000, line 140):
`'name' in item && 'title' in item && 'researchInterests' in item`.  For an
object this is membership among its keys; for an array these three names are
neither indices nor inherited members, so the test is false; for `null` or a
primitive the `in` operator throws a `TypeError`, which the enclosing `catch`
maps to the same hard failure as a false test, so both are modelled as
`false`. -/
def hasContactFields (j : Json) : Bool :=
  match j with
  | .obj fields =>
    (fields.any (fun p => p.1 = "name".data)) ∧
      (fields.any (fun p => p.1 = "title".data)) ∧
        (fields.any (fun p => p.1 = "researchInterests".data))
  | _ => false

/-- Response processing of `findContacts` (src/unnamed/part_000, lines
135-149): clean and parse the response; a non-array result throws, a
non-empty array containing an element without all three mandatory fields
throws, and otherwise the parsed array is returned as the contact list. -/
def findContacts (responseText : List Char) : Except String (List Json) :=
  match Json.parse (cleanJson responseText) with
  | none => .error contactsErrMsg
  | some j =>
    match j with
    | .arr elems =>
      if ¬ elems = [] ∧ ¬ elems.all hasContactFields then .error contactsErrMsg
      else .ok elems
    | _ => .error contactsErrMsg

/-- A drafted email before the `sent` flag is attached: the return shape of
`generateEmailForContact`.  Each field holds the raw runtime value: the
recipient is `contact.email` (whatever it is), and subject and body are the
possibly-absent properties of the parsed response. -/
structure EmailDraft where
  «to» : Option Json
  subject : Option Json
  body : Option Json
deriving DecidableEq

/-- Response processing of `generateEmailForContact` (src/unnamed/part_000,
lines 210-221): clean and parse the response and return the record built from
`contact.email` and the `subject` and `body` properties of the parsed value.
No shape validation happens: the property reads yield `undefined` when absent.
A parse failure throws, and a response parsing to `null` throws a `TypeError`
at the property read, both caught and rethrown as the translation error; a
`null` contact would equally throw at `contact.email`. -/
def generateEmailForContact (contact : Json) (responseText : List Char) :
    Except String EmailDraft :=
  match Json.parse (cleanJson responseText) with
  | none => .error emailGenErrMsg
  | some j =>
    if j = Json.null then .error emailGenErrMsg
    else if contact = Json.null then .error emailGenErrMsg
    else
      .ok
        { «to» := getField contact "email".data
          subject := getField j "subject".data
          body := getField j "body".data }

/-- The wizard steps (types.ts `Step`). -/
inductive Step where
  | Input : Step
  | Select : Step
  | Review : Step
deriving DecidableEq

/-- A drafted email with its dispatch flag (types.ts `Email` at runtime). -/
structure Email where
  «to» : Option Json
  subject : Option Json
  body : Option Json
  sent : Bool
deriving DecidableEq

/-- A history record (types.ts `HistoryEntry` at runtime). -/
structure HistoryEntry where
  «to» : Option Json
  subject : Option Json
  body : Option Json
  dateSent : String
deriving DecidableEq

/-- The mutable state of the `App` component relevant to the claims: the
wizard step, the collected inputs, the discovered contacts, the selection
set, the drafted emails, the history list and the error banner.  The busy
flags, the dark-mode preference and the app/history view switch carry no
claim content and are omitted.  A discovered contact is kept as the raw
`Json` value the discovery call returned, which is all the source
guarantees about it. -/
structure AppState where
  currentStep : Step
  resumeData : Option ResumeData
  university : String
  department : String
  purpose : String
  contacts : List Json
  selectedContacts : Finset Json
  emails : List Email
  history : List HistoryEntry
  error : Option String
deriving DecidableEq

/-- The initial component state (src/unnamed/part_000, lines 249-265), with
the history list as loaded from local storage at startup. -/
def initialState (storedHistory : List HistoryEntry) : AppState :=
  { currentStep := Step.Input
    resumeData := none
    university := ""
    department := ""
    purpose := "seeking a PhD research position"
    contacts := []
    selectedContacts := ∅
    emails := []
    history := storedHistory
    error := none }

/-- Guard message of `handleFindContacts` (src/unnamed/part_000, line 338). -/
def findGuardMsg : String := "Please upload your resume and enter a university name and department."

/-- Catch message of `handleFindContacts` (src/unnamed/part_000, line 350). -/
def findFailMsg : String := "Failed to find contacts. The model may have returned an unexpected format. Please try again."

/-- Guard message of `handleGenerateEmails` (src/unnamed/part_000, line 370). -/
def genGuardMsg : String := "Something went wrong. Please ensure resume, purpose, and contacts are selected."

/-- Catch message of `handleGenerateEmails` (src/unnamed/part_000, line 391). -/
def genFailMsg : String := "An error occurred while generating emails. Please try again."

/-- Message shown when resume parsing fails (src/unnamed/part_000, line 322,
apostrophe omitted). -/
def resumeFailMsg : String := "Failed to parse resume. The AI could not extract details. Please try another file."

/-- Message shown for a non-PDF selection (src/unnamed/part_000, line 331). -/
def pdfMsg : String := "Please upload a valid PDF file."

/-- The selection set built after a successful discovery
(src/unnamed/part_000, line 346):
`new Set(foundContacts.filter(p => p.email).map(p => p.email as string))` —
the email values of the found contacts whose `email` property is truthy. -/
def selectionInit (found : List Json) : Finset Json :=
  (found.filterMap (fun p =>
    match getField p "email".data with
    | some e => if truthy e then some e else none
    | none => none)).toFinset

/-- `handleFindContacts` (src/unnamed/part_000, lines 336-354), parameterised
by the discovery response text.  The second component records whether the AI
gateway was invoked: the guard returns before the `findContacts` call. -/
def handleFindContacts (responseText : List Char) (s : AppState) : AppState × Bool :=
  if s.resumeData = none ∨ s.university = "" ∨ s.department = "" then
    ({ s with error := some findGuardMsg }, false)
  else
    match findContacts responseText with
    | .ok found =>
      ({ s with
          error := none
          contacts := found
          selectedContacts := selectionInit found
          currentStep := Step.Select }, true)
    | .error _ => ({ s with error := some findFailMsg }, true)

/-- `handleContactSelection` (src/unnamed/part_000, lines 356-366): toggle an
email in the selection set. -/
def handleContactSelection (email : Json) (s : AppState) : AppState :=
  { s with
      selectedContacts :=
        if email ∈ s.selectedContacts then s.selectedContacts.erase email
        else insert email s.selectedContacts }

/-- The checkbox change event for a rendered contact
(src/unnamed/part_000, line 563): `contact.email && handleContactSelection(contact.email)`
— the toggle only fires when the contact has a truthy email (the checkbox is
also disabled without one). -/
def uiToggleContact (c : Json) (s : AppState) : AppState :=
  match getField c "email".data with
  | some e => if truthy e then handleContactSelection e s else s
  | none => s

/-- The list of contacts to email (src/unnamed/part_000, line 378):
`contacts.filter(p => p.email && selectedContacts.has(p.email))`. -/
def contactsToEmail (s : AppState) : List Json :=
  s.contacts.filter (fun p =>
    match getField p "email".data with
    | some e => truthy e ∧ e ∈ s.selectedContacts
    | none => false)

/-- The batch of per-contact drafting calls issued by `handleGenerateEmails`
(src/unnamed/part_000, lines 380-382), with the response environment as a
function from the position of the request to its response text. -/
def batchDrafts (resps : Nat → List Char) : List Json → List (Except String EmailDraft)
  | [] => []
  | c :: rest => generateEmailForContact c (resps 0) :: batchDrafts (fun i => resps (i + 1)) rest

/-- `Promise.all`: succeeds with all values in request order when every
request succeeds, and fails when any request fails. -/
def sequenceE : List (Except String EmailDraft) → Except String (List EmailDraft)
  | [] => .ok []
  | .ok a :: rest => (sequenceE rest).map (fun xs => a :: xs)
  | .error e :: _ => .error e

/-- `handleGenerateEmails` (src/unnamed/part_000, lines 368-395): after the
guard, the email list is cleared and the error reset; all drafting requests
run; on joint success the drafted records get `sent := false` and the wizard
advances to Review, and on any failure the single error message is set while
the email list stays empty. -/
def handleGenerateEmails (resps : Nat → List Char) (s : AppState) : AppState :=
  if s.resumeData = none ∨ s.purpose = "" ∨ s.selectedContacts = ∅ then
    { s with error := some genGuardMsg }
  else
    match sequenceE (batchDrafts resps (contactsToEmail s)) with
    | .ok gens =>
      { s with
          error := none
          emails := gens.map (fun g =>
            { «to» := g.«to», subject := g.subject, body := g.body, sent := false })
          currentStep := Step.Review }
    | .error _ => { s with error := some genFailMsg, emails := [] }

/-- `handleEmailChange` (src/unnamed/part_000, lines 397-403): assign a new
body to the email at the given index.  Out of range, the JavaScript
assignment to a property of `undefined` throws and no state update commits;
that case is `none`. -/
def handleEmailChange (index : Nat) (newBody : String) (s : AppState) : Option AppState :=
  if h : index < s.emails.length then
    some
      { s with
          emails := s.emails.set index { s.emails.get ⟨index, h⟩ with body := some (Json.str newBody.data) } }
  else none

/-- One history record captured at dispatch time
(src/unnamed/part_000, lines 421-426). -/
def entryOf (e : Email) (date : String) : HistoryEntry :=
  { «to» := e.«to», subject := e.subject, body := e.body, dateSent := date }

/-- The dispatch loop of `handleSendAll` (src/unnamed/part_000, lines
409-430) over the remaining email list: an already-sent email is skipped; an
unsent one is marked sent and a history record is captured for it with the
timestamp of its dispatch position.  Returns the updated list and the
captured records in dispatch order. -/
def sendAllGo (dates : Nat → String) (k : Nat) : List Email → List Email × List HistoryEntry
  | [] => ([], [])
  | e :: rest =>
    if e.sent then
      let p := sendAllGo dates k rest
      (e :: p.1, p.2)
    else
      let p := sendAllGo dates (k + 1) rest
      ({ e with sent := true } :: p.1, entryOf e (dates k) :: p.2)

/-- `handleSendAll` (src/unnamed/part_000, lines 405-441): run the dispatch
loop and prepend the captured records to the history list (prepending the
empty list when nothing was dispatched equals skipping the update, as the
source does). -/
def handleSendAll (dates : Nat → String) (s : AppState) : AppState :=
  let p := sendAllGo dates 0 s.emails
  { s with emails := p.1, history := p.2 ++ s.history }

/-- `handleBack` (src/unnamed/part_000, lines 451-457). -/
def handleBack (s : AppState) : AppState :=
  match s.currentStep with
  | Step.Review => { s with currentStep := Step.Select }
  | Step.Select => { s with currentStep := Step.Input }
  | Step.Input => s

/-- The PDF branch of `handleFileChange` (src/unnamed/part_000, lines
303-329), parameterised by the analysis response text: the resume data is
reset, then set on a successful parse; a failed parse reports the error with
the resume data still cleared. -/
def handleFileUpload (raw : RawFile) (responseText : List Char) (s : AppState) : AppState :=
  match parseResume raw responseText with
  | .ok d => { s with resumeData := some d, error := none }
  | .error _ => { s with resumeData := none, error := some resumeFailMsg }

/-- The non-PDF branch of `handleFileChange` (src/unnamed/part_000, lines
330-333). -/
def handleBadFile (s : AppState) : AppState :=
  { s with resumeData := none, error := some pdfMsg }

/-- `handleClearHistory` after confirmation (src/unnamed/part_000, lines
443-448); declining the confirmation changes nothing. -/
def handleClearHistory (s : AppState) : AppState :=
  { s with history := [] }

/-- One user-triggered transition of the component: the controlled inputs,
the file upload, the three async actions, a body edit, dispatch, back
navigation and history clearing.  The toggle event carries the side condition
that its contact is one of the rendered (current) contacts, and a body edit
carries the in-range condition under which the update commits. -/
inductive AppTr : AppState → AppState → Prop where
  | setUniversity (u : String) (s : AppState) : AppTr s { s with university := u }
  | setDepartment (d : String) (s : AppState) : AppTr s { s with department := d }
  | setPurpose (p : String) (s : AppState) : AppTr s { s with purpose := p }
  | upload (raw : RawFile) (r : List Char) (s : AppState) : AppTr s (handleFileUpload raw r s)
  | badFile (s : AppState) : AppTr s (handleBadFile s)
  | findC (r : List Char) (s : AppState) : AppTr s (handleFindContacts r s).1
  | toggle (c : Json) (s : AppState) (h : c ∈ s.contacts) : AppTr s (uiToggleContact c s)
  | generate (resps : Nat → List Char) (s : AppState) : AppTr s (handleGenerateEmails resps s)
  | edit (i : Nat) (b : String) (s s' : AppState) (h : handleEmailChange i b s = some s') :
      AppTr s s'
  | send (dates : Nat → String) (s : AppState) : AppTr s (handleSendAll dates s)
  | back (s : AppState) : AppTr s (handleBack s)
  | clearHistory (s : AppState) : AppTr s (handleClearHistory s)

/-- The states a session can reach: the initial state under any stored
history, closed under transitions. -/
inductive Reachable : AppState → Prop where
  | init (storedHistory : List HistoryEntry) : Reachable (initialState storedHistory)
  | step {s s' : AppState} : Reachable s → AppTr s s' → Reachable s'

/-- The four bracket characters the extraction phase of `cleanJsonString`
reacts to. -/
def isBracket (c : Char) : Bool :=
  c = '[' ∨ c = ']' ∨ c = '\x7b' ∨ c = '\x7d'

lemma idxFrom_eq_none {c : Char} {l : List Char} (h : ∀ a ∈ l, ¬ a = c) :
    idxFrom c l = none := by
  induction l with
  | nil => rfl
  | cons a rest ih =>
    simp only [idxFrom]
    rw [if_neg (h a (List.mem_cons_self a rest)),
      ih (fun x hx => h x (List.mem_cons_of_mem a hx))]
    rfl

lemma idxFrom_append_none {c : Char} {pre rest : List Char} (h : idxFrom c pre = none) :
    idxFrom c (pre ++ rest) = (idxFrom c rest).map (· + pre.length) := by
  induction pre with
  | nil => cases hr : idxFrom c rest <;> simp [hr]
  | cons a pre ih =>
    have hac : ¬ a = c := by
      intro hac
      simp [idxFrom, hac] at h
    have hp : idxFrom c pre = none := by
      cases hh : idxFrom c pre with
      | none => rfl
      | some k => simp [idxFrom, hac, hh] at h
    have step : idxFrom c ((a :: pre) ++ rest) = (idxFrom c (pre ++ rest)).map (· + 1) := by
      simp [idxFrom, hac]
    rw [step, ih hp]
    cases hr : idxFrom c rest with
    | none => simp [hr]
    | some k =>
      simp [hr]
      omega

lemma idxFrom_head {c : Char} {l : List Char} (h : l.head? = some c) : idxFrom c l = some 0 := by
  cases l with
  | nil => simp at h
  | cons a rest =>
    simp only [List.head?_cons, Option.some.injEq] at h
    simp [idxFrom, h]

lemma jsIndexOf_of_head {c : Char} {pre rest : List Char}
    (hpre : ∀ a ∈ pre, ¬ a = c) (hhead : rest.head? = some c) :
    jsIndexOf (pre ++ rest) c = (pre.length : Int) := by
  unfold jsIndexOf
  rw [idxFrom_append_none (idxFrom_eq_none hpre), idxFrom_head hhead]
  simp

lemma jsIndexOf_cases {c : Char} {pre rest : List Char} (hpre : ∀ a ∈ pre, ¬ a = c) :
    jsIndexOf (pre ++ rest) c = -1 ∨
      ∃ k : Nat, jsIndexOf (pre ++ rest) c = ((pre.length + k : Nat) : Int) := by
  unfold jsIndexOf
  rw [idxFrom_append_none (idxFrom_eq_none hpre)]
  cases hr : idxFrom c rest with
  | none => exact Or.inl rfl
  | some k => exact Or.inr ⟨k, by simp [Nat.add_comm]⟩

lemma jsLastIndexOf_of_getLast {c : Char} {pre mid post : List Char}
    (hpost : ∀ a ∈ post, ¬ a = c) (hlast : mid.getLast? = some c) :
    jsLastIndexOf (pre ++ mid ++ post) c =
      ((pre.length : Int) + (mid.length : Int)) - 1 := by
  have hrev : (pre ++ mid ++ post).reverse = post.reverse ++ (mid.reverse ++ pre.reverse) := by
    simp
  have hidx : idxFrom c (pre ++ mid ++ post).reverse = some post.length := by
    rw [hrev, idxFrom_append_none (idxFrom_eq_none (by
        intro a ha
        exact hpost a (List.mem_reverse.mp ha))),
      idxFrom_head (by
        have h1 : mid.reverse.head? = some c := by
          rw [List.head?_reverse]
          exact hlast
        cases hm : mid.reverse with
        | nil => rw [hm] at h1; simp at h1
        | cons x xs =>
          rw [hm] at h1
          simpa using h1)]
    simp
  have step : jsLastIndexOf (pre ++ mid ++ post) c =
      (((pre ++ mid ++ post).length : Int)) - 1 - (post.length : Int) := by
    unfold jsLastIndexOf
    rw [hidx]
  rw [step]
  simp only [List.length_append]
  push_cast
  ring

lemma jsLastIndexOf_ub {c : Char} {pre mid post : List Char}
    (hpost : ∀ a ∈ post, ¬ a = c) :
    jsLastIndexOf (pre ++ mid ++ post) c ≤ ((pre.length : Int) + (mid.length : Int)) - 1 := by
  have hrev : (pre ++ mid ++ post).reverse = post.reverse ++ (mid.reverse ++ pre.reverse) := by
    simp
  have hbase : idxFrom c (pre ++ mid ++ post).reverse =
      (idxFrom c (mid.reverse ++ pre.reverse)).map (· + post.length) := by
    rw [hrev, idxFrom_append_none (idxFrom_eq_none (by
        intro a ha
        exact hpost a (List.mem_reverse.mp ha)))]
    simp
  cases hr : idxFrom c (mid.reverse ++ pre.reverse) with
  | none =>
    have step : jsLastIndexOf (pre ++ mid ++ post) c = -1 := by
      unfold jsLastIndexOf
      rw [hbase, hr]
      rfl
    rw [step]
    have h0 : (0 : Int) ≤ (pre.length : Int) + (mid.length : Int) := by positivity
    omega
  | some k =>
    have step : jsLastIndexOf (pre ++ mid ++ post) c =
        (((pre ++ mid ++ post).length : Int)) - 1 - ((k + post.length : Nat) : Int) := by
      unfold jsLastIndexOf
      rw [hbase, hr]
      rfl
    rw [step]
    simp only [List.length_append]
    push_cast
    omega

lemma head?_append_of_head? {l1 l2 : List Char} {c : Char} (h : l1.head? = some c) :
    (l1 ++ l2).head? = some c := by
  cases l1 with
  | nil => simp at h
  | cons x xs => simpa using h

lemma startIdx_decomp {pre j post : List Char}
    (hpre : ∀ a ∈ pre, ¬ a = '[' ∧ ¬ a = '\x7b')
    (hopen : j.head? = some '[' ∨ j.head? = some '\x7b') :
    startIdx (pre ++ j ++ post) = (pre.length : Int) := by
  have hassoc : pre ++ j ++ post = pre ++ (j ++ post) := List.append_assoc pre j post
  rcases hopen with ho | ho
  · have fo : jsIndexOf (pre ++ j ++ post) '[' = (pre.length : Int) := by
      rw [hassoc]
      exact jsIndexOf_of_head (fun a ha => (hpre a ha).1) (head?_append_of_head? ho)
    have fc : jsIndexOf (pre ++ j ++ post) '\x7b' = -1 ∨
        ∃ k : Nat, jsIndexOf (pre ++ j ++ post) '\x7b' = ((pre.length + k : Nat) : Int) := by
      rw [hassoc]
      exact jsIndexOf_cases (fun a ha => (hpre a ha).2)
    unfold startIdx
    rw [fo]
    rw [if_neg (by omega)]
    rcases fc with hn | ⟨k, hk⟩
    · rw [hn, if_pos rfl]
    · rw [hk, if_neg (by push_cast; omega)]
      rw [min_eq_left (by push_cast; omega)]
  · have fo : jsIndexOf (pre ++ j ++ post) '\x7b' = (pre.length : Int) := by
      rw [hassoc]
      exact jsIndexOf_of_head (fun a ha => (hpre a ha).2) (head?_append_of_head? ho)
    have fc : jsIndexOf (pre ++ j ++ post) '[' = -1 ∨
        ∃ k : Nat, jsIndexOf (pre ++ j ++ post) '[' = ((pre.length + k : Nat) : Int) := by
      rw [hassoc]
      exact jsIndexOf_cases (fun a ha => (hpre a ha).1)
    unfold startIdx
    rw [fo]
    rcases fc with hn | ⟨k, hk⟩
    · rw [hn, if_pos rfl]
    · rw [hk, if_neg (by push_cast; omega), if_neg (by omega)]
      rw [min_eq_right (by push_cast; omega)]

lemma stopIdx_decomp {pre j post : List Char}
    (hpost : ∀ a ∈ post, ¬ a = ']' ∧ ¬ a = '\x7d')
    (hclose : j.getLast? = some ']' ∨ j.getLast? = some '\x7d') :
    stopIdx (pre ++ j ++ post) = (pre.length : Int) + (j.length : Int) - 1 := by
  rcases hclose with hc | hc
  · have f1 : jsLastIndexOf (pre ++ j ++ post) ']' =
        ((pre.length : Int) + (j.length : Int)) - 1 :=
      jsLastIndexOf_of_getLast (fun a ha => (hpost a ha).1) hc
    have f2 : jsLastIndexOf (pre ++ j ++ post) '\x7d' ≤
        ((pre.length : Int) + (j.length : Int)) - 1 :=
      jsLastIndexOf_ub (fun a ha => (hpost a ha).2)
    unfold stopIdx
    rw [f1]
    rw [max_eq_left (le_trans f2 (le_of_eq rfl))]
  · have f1 : jsLastIndexOf (pre ++ j ++ post) '\x7d' =
        ((pre.length : Int) + (j.length : Int)) - 1 :=
      jsLastIndexOf_of_getLast (fun a ha => (hpost a ha).2) hc
    have f2 : jsLastIndexOf (pre ++ j ++ post) ']' ≤
        ((pre.length : Int) + (j.length : Int)) - 1 :=
      jsLastIndexOf_ub (fun a ha => (hpost a ha).1)
    unfold stopIdx
    rw [f1]
    rw [max_eq_right (le_trans f2 (le_of_eq rfl))]

lemma extractJson_decomp {pre j post : List Char}
    (hpre : ∀ c ∈ pre, isBracket c = false)
    (hpost : ∀ c ∈ post, isBracket c = false)
    (hne : ¬ j = [])
    (hopen : j.head? = some '[' ∨ j.head? = some '\x7b')
    (hclose : j.getLast? = some ']' ∨ j.getLast? = some '\x7d') :
    extractJson (pre ++ j ++ post) = j := by
  have hpre' : ∀ a ∈ pre, ¬ a = '[' ∧ ¬ a = ']' ∧ ¬ a = '\x7b' ∧ ¬ a = '\x7d' := by
    intro a ha
    have h := hpre a ha
    simp only [isBracket, decide_eq_false_iff_not] at h
    push_neg at h
    exact h
  have hpost' : ∀ a ∈ post, ¬ a = '[' ∧ ¬ a = ']' ∧ ¬ a = '\x7b' ∧ ¬ a = '\x7d' := by
    intro a ha
    have h := hpost a ha
    simp only [isBracket, decide_eq_false_iff_not] at h
    push_neg at h
    exact h
  have hJ : 1 ≤ j.length := List.length_pos.mpr hne
  have hstart : startIdx (pre ++ j ++ post) = (pre.length : Int) :=
    startIdx_decomp (fun a ha => ⟨(hpre' a ha).1, (hpre' a ha).2.2.1⟩) hopen
  have hstop : stopIdx (pre ++ j ++ post) = (pre.length : Int) + (j.length : Int) - 1 :=
    stopIdx_decomp (fun a ha => ⟨(hpost' a ha).2.1, (hpost' a ha).2.2.2⟩) hclose
  unfold extractJson
  rw [hstart, hstop]
  rw [if_neg (by omega)]
  rw [if_neg (by omega)]
  have e1 : ((pre.length : Int)).toNat = pre.length := by omega
  have e2 : ((pre.length : Int) + (j.length : Int) - 1).toNat = pre.length + j.length - 1 := by
    omega
  rw [e1, e2]
  have e3 : pre.length + j.length - 1 + 1 - pre.length = j.length := by omega
  rw [e3]
  rw [List.append_assoc, List.drop_left, List.take_left]

lemma mem_dropWhile_sub {p : Char → Bool} {l : List Char} {a : Char}
    (h : a ∈ l.dropWhile p) : a ∈ l := by
  induction l with
  | nil => simp at h
  | cons x xs ih =>
    rw [List.dropWhile_cons] at h
    by_cases hp : p x
    · rw [if_pos hp] at h
      exact List.mem_cons_of_mem x (ih h)
    · rw [if_neg hp] at h
      exact h

lemma mem_trimChars_sub {l : List Char} {a : Char} (h : a ∈ trimChars l) : a ∈ l := by
  unfold trimChars at h
  rw [List.mem_reverse] at h
  have h2 := mem_dropWhile_sub h
  rw [List.mem_reverse] at h2
  exact mem_dropWhile_sub h2

lemma stripFences_of_no_backtick {l : List Char} (h : ∀ a ∈ l, ¬ a = '`') :
    stripFences l = l := by
  have h1 : ¬ l.take 7 = "```json".data := by
    intro he
    have hm : '`' ∈ l.take 7 := by
      rw [he]
      decide
    exact h '`' (List.take_subset 7 l hm) rfl
  have h2 : ¬ (3 ≤ l.length ∧ l.drop (l.length - 3) = "```".data) := by
    rintro ⟨_, he⟩
    have hm : '`' ∈ l.drop (l.length - 3) := by
      rw [he]
      decide
    exact h '`' (List.drop_subset _ l hm) rfl
  simp only [stripFences]
  rw [if_neg h1, if_neg h2]

lemma extractJson_of_no_bracket {l : List Char} (h : ∀ a ∈ l, isBracket a = false) :
    extractJson l = l := by
  have h' : ∀ a ∈ l, ¬ a = '[' ∧ ¬ a = ']' ∧ ¬ a = '\x7b' ∧ ¬ a = '\x7d' := by
    intro a ha
    have hb := h a ha
    simp only [isBracket, decide_eq_false_iff_not] at hb
    push_neg at hb
    exact hb
  have f1 : jsIndexOf l '[' = -1 := by
    unfold jsIndexOf
    rw [idxFrom_eq_none (fun a ha => (h' a ha).1)]
  have f2 : jsIndexOf l '\x7b' = -1 := by
    unfold jsIndexOf
    rw [idxFrom_eq_none (fun a ha => (h' a ha).2.2.1)]
  have hs : startIdx l = -1 := by
    simp only [startIdx]
    rw [f1, f2]
    simp
  unfold extractJson
  rw [hs]
  simp

/-- **C1** (as amended).  The JSON-extraction helper `cleanJsonString`:
(1) whenever the fence-stripped, trimmed response text decomposes as
commentary, then a chunk that begins with an opening bracket or brace and
ends with a closing bracket or brace (as the serialized form of a JSON array
or object does), then commentary again, with both commentary parts free of
bracket characters, the helper returns exactly that chunk — the substring
from the first opening bracket/brace to the last closing bracket/brace,
which therefore parses to the wrapped value;
(2) on text containing neither bracket characters nor backticks it returns
the trimmed original text unchanged.  (The original claim asserted (2) for
every bracket-free text; the counterexample shows the markdown-fence
stripping makes that false, so (2) is weakened by excluding fence
characters.) -/
theorem claim_C1 :
    (∀ s pre j post : List Char,
        trimChars (stripFences s) = pre ++ j ++ post →
        (∀ c ∈ pre, isBracket c = false) →
        (∀ c ∈ post, isBracket c = false) →
        ¬ j = [] →
        (j.head? = some '[' ∨ j.head? = some '\x7b') →
        (j.getLast? = some ']' ∨ j.getLast? = some '\x7d') →
        cleanJson s = j) ∧
    (∀ s : List Char,
        (∀ c ∈ s, isBracket c = false) →
        (∀ c ∈ s, ¬ c = '`') →
        cleanJson s = trimChars s) := by
  constructor
  · intro s pre j post hdec hpre hpost hne hopen hclose
    unfold cleanJson
    rw [hdec]
    exact extractJson_decomp hpre hpost hne hopen hclose
  · intro s hbr hbt
    unfold cleanJson
    rw [stripFences_of_no_backtick hbt]
    exact extractJson_of_no_bracket (fun a ha => hbr a (mem_trimChars_sub ha))

/-- **C1 counterexample.**  The text `'''json hi'''` (with backticks for the
quotes here) contains no bracket characters, yet `cleanJsonString` does not
return the trimmed original text: the fence stripping turns it into `hi`
first.  This refutes the claim that bracket-free text is returned trimmed
but otherwise unchanged. -/
theorem claim_C1_counterexample :
    (∀ c ∈ "```json hi```".data, isBracket c = false) ∧
      ¬ cleanJson "```json hi```".data = trimChars "```json hi```".data := by
  constructor
  · decide
  · decide

/-- **C1 witness**: a response wrapping the array `[1, 2]` in commentary and a
markdown fence is cleaned to exactly `[1, 2]`. -/
theorem claim_C1_witness :
    cleanJson "Note:\n```json\n[1, 2]\n```\nok".data = "[1, 2]".data :=
  claim_C1.1 "Note:\n```json\n[1, 2]\n```\nok".data
    "Note:\n```json\n".data "[1, 2]".data "\n```\nok".data
    (by decide) (by decide) (by decide) (by decide) (by decide) (by decide)

/-- **C9.**  When resume facts are absent or the university or department
string is empty, triggering Find Contacts only sets the guard error message:
the returned state differs from the current one in the error banner alone
(in particular the step stays Input when it was Input), and the second
component records that the contact-discovery operation of the AI gateway was
not invoked, whatever response it would have produced. -/
theorem claim_C9 (r : List Char) (s : AppState)
    (h : s.resumeData = none ∨ s.university = "" ∨ s.department = "") :
    handleFindContacts r s = ({ s with error := some findGuardMsg }, false) := by
  unfold handleFindContacts
  rw [if_pos h]

/-- **C9 witness**: from the initial state (no resume uploaded) the guard
fires: no step change, no gateway call. -/
theorem claim_C9_witness :
    handleFindContacts "[]".data (initialState []) =
      ({ initialState [] with error := some findGuardMsg }, false) :=
  claim_C9 "[]".data (initialState []) (Or.inl rfl)

/-- **C10.**  For an in-range index, the body-edit handler commits an update
that changes only the body of the email at that index to the new text: its
recipient, subject and sent flag are untouched, every other index is
untouched, and every other state component is untouched. -/
theorem claim_C10 (s : AppState) (i : Nat) (b : String) (h : i < s.emails.length) :
    ∃ s', handleEmailChange i b s = some s' ∧
      s'.emails.length = s.emails.length ∧
      (∀ j, ¬ j = i → s'.emails[j]? = s.emails[j]?) ∧
      (∀ e, s.emails[i]? = some e →
        s'.emails[i]? = some
          { «to» := e.«to»
            subject := e.subject
            body := some (Json.str b.data)
            sent := e.sent }) ∧
      s'.currentStep = s.currentStep ∧ s'.resumeData = s.resumeData ∧
      s'.university = s.university ∧ s'.department = s.department ∧
      s'.purpose = s.purpose ∧ s'.contacts = s.contacts ∧
      s'.selectedContacts = s.selectedContacts ∧ s'.history = s.history ∧
      s'.error = s.error := by
  have hcommit : handleEmailChange i b s = some
      { s with emails := s.emails.set i { s.emails.get ⟨i, h⟩ with body := some (Json.str b.data) } } := by
    unfold handleEmailChange
    rw [dif_pos h]
  refine ⟨_, hcommit, ?_, ?_, ?_, rfl, rfl, rfl, rfl, rfl, rfl, rfl, rfl, rfl⟩
  · simp
  · intro j hj
    simp only
    exact List.getElem?_set_ne (fun hij => hj hij.symm)
  · intro e he
    have hget : s.emails.get ⟨i, h⟩ = e := by
      rw [List.get_eq_getElem]
      have hh := List.getElem?_eq_getElem h
      rw [hh] at he
      exact Option.some.inj he
    simp only
    rw [List.getElem?_set_self h, hget]

/-- **C10 witness**: editing index 0 of a one-email list rewrites only that
body. -/
theorem claim_C10_witness :
    ∃ s', handleEmailChange 0 "new body"
        { initialState [] with
            emails :=
              [{ «to» := some (Json.str "a@b".data)
                 subject := some (Json.str ['s'])
                 body := some (Json.str ['o'])
                 sent := false }] } = some s' ∧
      s'.emails[0]? = some
        { «to» := some (Json.str "a@b".data)
          subject := some (Json.str ['s'])
          body := some (Json.str "new body".data)
          sent := false } := by
  obtain ⟨s', h1, _, _, h4, _⟩ := claim_C10
    { initialState [] with
        emails :=
          [{ «to» := some (Json.str "a@b".data)
             subject := some (Json.str ['s'])
             body := some (Json.str ['o'])
             sent := false }] }
    0 "new body" (by decide)
  exact ⟨s', h1, h4 _ rfl⟩

/-- The history records a full dispatch produces for a given list of pending
emails, with consecutive timestamps from the given position: one record per
email, in list order. -/
def buildEntries (dates : Nat → String) : Nat → List Email → List HistoryEntry
  | _, [] => []
  | k, e :: rest => entryOf e (dates k) :: buildEntries dates (k + 1) rest

lemma buildEntries_length (dates : Nat → String) :
    ∀ (k : Nat) (l : List Email), (buildEntries dates k l).length = l.length := by
  intro k l
  induction l generalizing k with
  | nil => rfl
  | cons e rest ih => simp [buildEntries, ih]

lemma set_sent_of_sent {e : Email} (h : e.sent = true) : { e with sent := true } = e := by
  cases e
  simp only at h
  rw [h]

lemma sendAllGo_fst_length (dates : Nat → String) :
    ∀ (k : Nat) (l : List Email), (sendAllGo dates k l).1.length = l.length := by
  intro k l
  induction l generalizing k with
  | nil => rfl
  | cons e rest ih =>
    by_cases hs : e.sent
    · simp [sendAllGo, hs, ih]
    · simp [sendAllGo, hs, ih]

lemma sendAllGo_fst_get? (dates : Nat → String) :
    ∀ (k : Nat) (l : List Email) (i : Nat) (e : Email), l[i]? = some e →
      (sendAllGo dates k l).1[i]? = some { e with sent := true } := by
  intro k l
  induction l generalizing k with
  | nil =>
    intro i e he
    simp at he
  | cons a rest ih =>
    intro i e he
    by_cases hs : a.sent
    · cases i with
      | zero =>
        simp only [List.getElem?_cons_zero, Option.some.injEq] at he
        simp [sendAllGo, hs, ← he, set_sent_of_sent hs]
      | succ n =>
        simp only [List.getElem?_cons_succ] at he
        simp [sendAllGo, hs, ih k n e he]
    · cases i with
      | zero =>
        simp only [List.getElem?_cons_zero, Option.some.injEq] at he
        simp [sendAllGo, hs, ← he]
      | succ n =>
        simp only [List.getElem?_cons_succ] at he
        simp [sendAllGo, hs, ih (k + 1) n e he]

lemma sendAllGo_snd (dates : Nat → String) :
    ∀ (k : Nat) (l : List Email),
      (sendAllGo dates k l).2 = buildEntries dates k (l.filter (fun e => ! e.sent)) := by
  intro k l
  induction l generalizing k with
  | nil => rfl
  | cons e rest ih =>
    by_cases hs : e.sent
    · simp [sendAllGo, hs, List.filter_cons, ih k]
    · simp [sendAllGo, hs, List.filter_cons, buildEntries, ih (k + 1)]

/-- **C4.**  A full dispatch (`handleSendAll`) preserves the length and order
of the email list; each position keeps its recipient, subject and body and has
its sent flag set (an already-sent record is untouched, since setting its flag
is the identity); the history list is extended, at the front, by exactly one
record per previously-unsent email, in original list order with consecutive
dispatch timestamps — so the history grows by exactly the number of
previously-unsent emails; and no other state component changes. -/
theorem claim_C4 (dates : Nat → String) (s : AppState) :
    (handleSendAll dates s).emails.length = s.emails.length ∧
    (∀ (i : Nat) (e : Email), s.emails[i]? = some e →
      (handleSendAll dates s).emails[i]? = some { e with sent := true }) ∧
    (handleSendAll dates s).history =
      buildEntries dates 0 (s.emails.filter (fun e => ! e.sent)) ++ s.history ∧
    (handleSendAll dates s).history.length =
      (s.emails.filter (fun e => ! e.sent)).length + s.history.length ∧
    (handleSendAll dates s).currentStep = s.currentStep ∧
    (handleSendAll dates s).resumeData = s.resumeData ∧
    (handleSendAll dates s).contacts = s.contacts ∧
    (handleSendAll dates s).selectedContacts = s.selectedContacts ∧
    (handleSendAll dates s).error = s.error := by
  refine ⟨?_, ?_, ?_, ?_, rfl, rfl, rfl, rfl, rfl⟩
  · exact sendAllGo_fst_length dates 0 s.emails
  · intro i e he
    exact sendAllGo_fst_get? dates 0 s.emails i e he
  · show (sendAllGo dates 0 s.emails).2 ++ s.history = _
    rw [sendAllGo_snd dates 0 s.emails]
  · show ((sendAllGo dates 0 s.emails).2 ++ s.history).length = _
    rw [List.length_append, sendAllGo_snd dates 0 s.emails,
      buildEntries_length dates 0]

/-- A concrete two-email state for the dispatch witness: one email already
sent, one pending. -/
def st0 : AppState :=
  { initialState [] with
      emails :=
        [{ «to» := some (Json.str "a@a".data)
           subject := none
           body := none
           sent := true },
         { «to» := some (Json.str "b@b".data)
           subject := none
           body := none
           sent := false }] }

/-- **C4 witness**: dispatching a two-email list (one already sent, one
pending) marks position 1 sent and grows the history by one record. -/
theorem claim_C4_witness :
    ((handleSendAll (fun _ => "2026-01-01") st0).emails[1]? = some
      { «to» := some (Json.str "b@b".data)
        subject := none
        body := none
        sent := true }) ∧
    (handleSendAll (fun _ => "2026-01-01") st0).history.length = 1 := by
  obtain ⟨_, h2, _, h4, _⟩ := claim_C4 (fun _ => "2026-01-01") st0
  refine ⟨h2 1 _ rfl, ?_⟩
  rw [h4]
  rfl

/-- The two operations that touch an existing drafted-email list within a
session: a body edit and a full dispatch.  (The other handlers replace the
list wholesale with freshly created records rather than mutate existing
ones.) -/
inductive SessionOp where
  | change (i : Nat) (b : String) : SessionOp
  | send (dates : Nat → String) : SessionOp

/-- Apply one session operation; an out-of-range body edit throws in the
source before any state update commits, so it leaves the state unchanged. -/
def applyOp : SessionOp → AppState → AppState
  | .change i b, s => (handleEmailChange i b s).getD s
  | .send dates, s => handleSendAll dates s

/-- Apply a sequence of session operations in order. -/
def applyOps : List SessionOp → AppState → AppState
  | [], s => s
  | op :: ops, s => applyOps ops (applyOp op s)

lemma applyOp_sent_mono (op : SessionOp) (s : AppState) (i : Nat)
    (h : (s.emails[i]?).map Email.sent = some true) :
    ((applyOp op s).emails[i]?).map Email.sent = some true := by
  obtain ⟨e, he, hs⟩ : ∃ e, s.emails[i]? = some e ∧ e.sent = true := by
    cases hq : s.emails[i]? with
    | none => rw [hq] at h; simp at h
    | some e =>
      rw [hq] at h
      simp only [Option.map_some'] at h
      exact ⟨e, rfl, Option.some.inj h⟩
  cases op with
  | send dates =>
    have h2 := sendAllGo_fst_get? dates 0 s.emails i e he
    simp only [applyOp, handleSendAll, h2, Option.map_some']
  | change j b =>
    simp only [applyOp]
    cases hc : handleEmailChange j b s with
    | none => simpa [he] using hs
    | some s' =>
      simp only [Option.getD_some]
      have hlt : j < s.emails.length := by
        by_contra hge
        simp [handleEmailChange, hge] at hc
      have hs' : s' = { s with emails := s.emails.set j { s.emails.get ⟨j, hlt⟩ with body := some (Json.str b.data) } } := by
        have hcc := hc.symm
        rw [handleEmailChange, dif_pos hlt, Option.some.injEq] at hcc
        exact hcc
      subst hs'
      by_cases hij : j = i
      · subst hij
        have hgeti : s.emails.get ⟨j, hlt⟩ = e := by
          rw [List.get_eq_getElem]
          have hh := List.getElem?_eq_getElem hlt
          rw [hh] at he
          exact Option.some.inj he
        simp only [List.getElem?_set_self hlt, hgeti, Option.map_some']
        rw [hs]
      · simp only [List.getElem?_set_ne hij, he, Option.map_some']
        rw [hs]

/-- **C8.**  Across every sequence of the session operations that act on the
drafted email list — body edits (`handleEmailChange`), which never touch the
sent field, and dispatches (`handleSendAll`), which only ever set it from
false to true — a record whose sent flag is true keeps a true sent flag at
its position: once sent, never unsent. -/
theorem claim_C8 (ops : List SessionOp) (s : AppState) (i : Nat)
    (h : (s.emails[i]?).map Email.sent = some true) :
    (((applyOps ops s).emails[i]?).map Email.sent) = some true := by
  induction ops generalizing s with
  | nil => exact h
  | cons op ops ih => exact ih (applyOp op s) (applyOp_sent_mono op s i h)

/-- **C8 witness**: after an edit and a dispatch, the already-sent first
email of `st0` is still marked sent. -/
theorem claim_C8_witness :
    (((applyOps [SessionOp.change 1 "hello", SessionOp.send (fun _ => "2026-01-02")] st0).emails[0]?).map
        Email.sent) = some true :=
  claim_C8 [SessionOp.change 1 "hello", SessionOp.send (fun _ => "2026-01-02")] st0 0 rfl


/-- The record `parseResume` builds from a successfully parsed response. -/
def resumeRecordOf (raw : RawFile) (j : Json) : ResumeData :=
  { name := raw.name
    mimeType := raw.mimeType
    data := raw.data
    skills := jsOr (getField j "skills".data) (Json.arr [])
    educationLevel := jsOr (getField j "educationLevel".data) (Json.str "Not found".data)
    projects := jsOr (getField j "projects".data) (Json.arr []) }

lemma parseResume_of_parse_none {t : List Char} (raw : RawFile)
    (hp : Json.parse (cleanJson t) = none) :
    parseResume raw t = Except.error resumeParseErrMsg := by
  unfold parseResume
  rw [hp]

lemma parseResume_of_parse_some {t : List Char} (raw : RawFile) {j : Json}
    (hp : Json.parse (cleanJson t) = some j) :
    parseResume raw t =
      if j = Json.null then Except.error resumeParseErrMsg
      else Except.ok (resumeRecordOf raw j) := by
  unfold parseResume
  rw [hp]
  rfl

/-- **C6** (as amended).  Resume extraction: it is a hard failure exactly
when the cleaned response text is not parseable JSON or parses to JSON
`null` (the original claim said: exactly when not parseable at all — the
counterexample is the parseable response `null`, on which the property reads
throw).  On success the record carries the raw file fields unchanged, and a
missing `skills`, `educationLevel` or `projects` property defaults to the
empty array, the string `Not found`, and the empty array respectively (as
does a falsy one, by the `||` idiom of the source). -/
theorem claim_C6 (raw : RawFile) (t : List Char) :
    ((parseResume raw t).isOk = true ↔
      ∃ j, Json.parse (cleanJson t) = some j ∧ ¬ j = Json.null) ∧
    (∀ j r, Json.parse (cleanJson t) = some j → parseResume raw t = Except.ok r →
      r.name = raw.name ∧ r.mimeType = raw.mimeType ∧ r.data = raw.data ∧
      (getField j "skills".data = none → r.skills = Json.arr []) ∧
      (getField j "educationLevel".data = none →
        r.educationLevel = Json.str "Not found".data) ∧
      (getField j "projects".data = none → r.projects = Json.arr []) ∧
      r.skills = jsOr (getField j "skills".data) (Json.arr []) ∧
      r.educationLevel = jsOr (getField j "educationLevel".data) (Json.str "Not found".data) ∧
      r.projects = jsOr (getField j "projects".data) (Json.arr [])) := by
  constructor
  · constructor
    · intro hok
      cases hp : Json.parse (cleanJson t) with
      | none =>
        rw [parseResume_of_parse_none raw hp] at hok
        simp [Except.isOk, Except.toBool] at hok
      | some j =>
        by_cases hn : j = Json.null
        · rw [parseResume_of_parse_some raw hp, if_pos hn] at hok
          simp [Except.isOk, Except.toBool] at hok
        · exact ⟨j, rfl, hn⟩
    · rintro ⟨j, hp, hn⟩
      rw [parseResume_of_parse_some raw hp, if_neg hn]
      rfl
  · intro j r hp hok
    rw [parseResume_of_parse_some raw hp] at hok
    by_cases hn : j = Json.null
    · rw [if_pos hn] at hok
      exact absurd hok (by simp)
    · rw [if_neg hn, Except.ok.injEq] at hok
      subst hok
      refine ⟨rfl, rfl, rfl, ?_, ?_, ?_, rfl, rfl, rfl⟩
      · intro hnone
        simp [resumeRecordOf, jsOr, hnone]
      · intro hnone
        simp [resumeRecordOf, jsOr, hnone]
      · intro hnone
        simp [resumeRecordOf, jsOr, hnone]

/-- **C6 counterexample.**  The response text `null` is parseable JSON, yet
`parseResume` hard-fails on it: the claim that failure happens exactly and
only for non-parseable responses is false. -/
theorem claim_C6_counterexample :
    Json.parse (cleanJson "null".data) = some Json.null ∧
      parseResume ⟨"cv.pdf", "application/pdf", "QUJD"⟩ "null".data =
        Except.error resumeParseErrMsg :=
  ⟨rfl, rfl⟩

/-- **C6 witness**: the empty-object response succeeds, with every analysed
field at its default. -/
theorem claim_C6_witness :
    (parseResume ⟨"cv.pdf", "application/pdf", "QUJD"⟩ "\x7b\x7d".data).isOk = true :=
  (claim_C6 ⟨"cv.pdf", "application/pdf", "QUJD"⟩ "\x7b\x7d".data).1.mpr
    ⟨Json.obj [], rfl, by decide⟩

/-- The contact used in the drafting counterexample and witness: a contact
object whose email property is a non-null address. -/
def contactEx : Json :=
  Json.obj [("email".data, Json.str "a@b".data)]

lemma generateEmail_of_parse_none {t : List Char} (contact : Json)
    (hp : Json.parse (cleanJson t) = none) :
    generateEmailForContact contact t = Except.error emailGenErrMsg := by
  unfold generateEmailForContact
  rw [hp]

lemma generateEmail_of_parse_some {t : List Char} (contact : Json) {j : Json}
    (hp : Json.parse (cleanJson t) = some j) :
    generateEmailForContact contact t =
      if j = Json.null then Except.error emailGenErrMsg
      else if contact = Json.null then Except.error emailGenErrMsg
      else Except.ok
        { «to» := getField contact "email".data
          subject := getField j "subject".data
          body := getField j "body".data } := by
  unfold generateEmailForContact
  rw [hp]

/-- **C2** (as amended).  Email drafting for a non-null contact: it is a hard
failure exactly when the cleaned response text is not parseable JSON or
parses to JSON `null`; the presence of `subject` and `body` properties is
never checked (the original claim said a missing field is a hard failure —
the counterexample is the empty-object response, which succeeds with both
fields `undefined`).  On success the recipient is exactly the value of the
contact's `email` property — the validated non-null address at every call
site — and subject and body are the parsed object's properties when
present. -/
theorem claim_C2 (contact : Json) (t : List Char) (hc : ¬ contact = Json.null) :
    (Json.parse (cleanJson t) = none →
      generateEmailForContact contact t = Except.error emailGenErrMsg) ∧
    (Json.parse (cleanJson t) = some Json.null →
      generateEmailForContact contact t = Except.error emailGenErrMsg) ∧
    (∀ j, Json.parse (cleanJson t) = some j → ¬ j = Json.null →
      generateEmailForContact contact t = Except.ok
        { «to» := getField contact "email".data
          subject := getField j "subject".data
          body := getField j "body".data }) := by
  refine ⟨?_, ?_, ?_⟩
  · intro hp
    exact generateEmail_of_parse_none contact hp
  · intro hp
    rw [generateEmail_of_parse_some contact hp, if_pos rfl]
  · intro j hp hn
    rw [generateEmail_of_parse_some contact hp, if_neg hn, if_neg hc]

/-- **C2 counterexample.**  The empty-object response has neither a subject
nor a body property, yet drafting succeeds (with both fields `undefined`)
instead of failing: the claimed hard failure on a missing field does not
happen. -/
theorem claim_C2_counterexample :
    Json.parse (cleanJson "\x7b\x7d".data) = some (Json.obj []) ∧
    getField (Json.obj []) "subject".data = none ∧
    getField (Json.obj []) "body".data = none ∧
    generateEmailForContact contactEx "\x7b\x7d".data =
      Except.ok { «to» := some (Json.str "a@b".data), subject := none, body := none } :=
  ⟨rfl, rfl, rfl, rfl⟩

/-- **C2 witness**: a well-formed response drafts an email whose recipient is
the contact's email value. -/
theorem claim_C2_witness :
    generateEmailForContact contactEx "\x7b\"subject\": \"Hi\", \"body\": \"Text\"\x7d".data =
      Except.ok
        { «to» := some (Json.str "a@b".data)
          subject := some (Json.str "Hi".data)
          body := some (Json.str "Text".data) } :=
  (claim_C2 contactEx "\x7b\"subject\": \"Hi\", \"body\": \"Text\"\x7d".data (by decide)).2.2
    (Json.obj [("subject".data, Json.str "Hi".data), ("body".data, Json.str "Text".data)])
    rfl (by decide)

lemma findContacts_of_parse_none {t : List Char}
    (hp : Json.parse (cleanJson t) = none) :
    findContacts t = Except.error contactsErrMsg := by
  unfold findContacts
  rw [hp]

lemma findContacts_of_parse_arr {t : List Char} {elems : List Json}
    (hp : Json.parse (cleanJson t) = some (Json.arr elems)) :
    findContacts t =
      if ¬ elems = [] ∧ ¬ elems.all hasContactFields then Except.error contactsErrMsg
      else Except.ok elems := by
  unfold findContacts
  rw [hp]

lemma findContacts_of_parse_other {t : List Char} {j : Json}
    (hp : Json.parse (cleanJson t) = some j) (hj : ∀ elems, ¬ j = Json.arr elems) :
    findContacts t = Except.error contactsErrMsg := by
  unfold findContacts
  rw [hp]
  cases j with
  | arr elems => exact absurd rfl (hj elems)
  | null => rfl
  | bool b => rfl
  | num lit => rfl
  | str s => rfl
  | obj fields => rfl

/-- **C5.**  Contact discovery: a response whose cleaned text parses to the
empty array succeeds with the empty contact list; a non-empty array in which
some element fails the three-mandatory-field check (an object missing one of
name, title, researchInterests, or a non-object, on which the `in` operator
throws) is a hard failure; a non-empty array in which every element passes
is returned as is; any non-array parse result is a hard failure, as is an
unparseable response; and whenever discovery fails, `handleFindContacts`
leaves the wizard on its current step. -/
theorem claim_C5 (t : List Char) :
    (Json.parse (cleanJson t) = some (Json.arr []) → findContacts t = Except.ok []) ∧
    (∀ elems, Json.parse (cleanJson t) = some (Json.arr elems) → ¬ elems = [] →
      elems.all hasContactFields = false → findContacts t = Except.error contactsErrMsg) ∧
    (∀ elems, Json.parse (cleanJson t) = some (Json.arr elems) →
      elems.all hasContactFields = true → findContacts t = Except.ok elems) ∧
    (∀ j, Json.parse (cleanJson t) = some j → (∀ elems, ¬ j = Json.arr elems) →
      findContacts t = Except.error contactsErrMsg) ∧
    (Json.parse (cleanJson t) = none → findContacts t = Except.error contactsErrMsg) ∧
    (∀ s : AppState, (∀ found, ¬ findContacts t = Except.ok found) →
      (handleFindContacts t s).1.currentStep = s.currentStep) := by
  refine ⟨?_, ?_, ?_, ?_, ?_, ?_⟩
  · intro hp
    rw [findContacts_of_parse_arr hp]
    simp
  · intro elems hp hne hall
    rw [findContacts_of_parse_arr hp]
    rw [if_pos ⟨hne, by simp [hall]⟩]
  · intro elems hp hall
    rw [findContacts_of_parse_arr hp]
    rw [if_neg (by simp [hall])]
  · intro j hp hj
    exact findContacts_of_parse_other hp hj
  · intro hp
    exact findContacts_of_parse_none hp
  · intro s hfail
    unfold handleFindContacts
    by_cases hg : s.resumeData = none ∨ s.university = "" ∨ s.department = ""
    · rw [if_pos hg]
    · rw [if_neg hg]
      cases hf : findContacts t with
      | ok found => exact absurd hf (hfail found)
      | error e => rfl

/-- **C5 witness**: the empty-array response is a valid, non-error outcome
with an empty contact list, and a one-element array missing the mandatory
fields hard-fails. -/
theorem claim_C5_witness :
    findContacts "[]".data = Except.ok [] ∧
      findContacts "[\x7b\"name\": \"N\"\x7d]".data = Except.error contactsErrMsg := by
  constructor
  · exact (claim_C5 "[]".data).1 rfl
  · exact (claim_C5 "[\x7b\"name\": \"N\"\x7d]".data).2.1
      [Json.obj [("name".data, Json.str ['N'])]] rfl (by decide) (by decide)

lemma batchDrafts_get? :
    ∀ (l : List Json) (resps : Nat → List Char) (k : Nat),
      (batchDrafts resps l)[k]? = (l[k]?).map (fun c => generateEmailForContact c (resps k)) := by
  intro l
  induction l with
  | nil =>
    intro resps k
    simp [batchDrafts]
  | cons c rest ih =>
    intro resps k
    cases k with
    | zero => simp [batchDrafts]
    | succ n =>
      simp only [batchDrafts, List.getElem?_cons_succ]
      exact ih (fun i => resps (i + 1)) n

lemma batchDrafts_length (resps : Nat → List Char) :
    ∀ l : List Json, (batchDrafts resps l).length = l.length := by
  intro l
  induction l generalizing resps with
  | nil => rfl
  | cons c rest ih => simp [batchDrafts, ih]

lemma sequenceE_ok_length :
    ∀ {l : List (Except String EmailDraft)} {xs : List EmailDraft},
      sequenceE l = Except.ok xs → xs.length = l.length := by
  intro l
  induction l with
  | nil =>
    intro xs h
    simp only [sequenceE, Except.ok.injEq] at h
    rw [← h]
    rfl
  | cons r rest ih =>
    intro xs h
    cases r with
    | error e => exact absurd h (by simp [sequenceE])
    | ok a =>
      simp only [sequenceE] at h
      cases hr : sequenceE rest with
      | error e => rw [hr] at h; exact absurd h (by simp [Except.map])
      | ok ys =>
        rw [hr] at h
        simp only [Except.map, Except.ok.injEq] at h
        rw [← h]
        simp [ih hr]

lemma sequenceE_ok_get? :
    ∀ {l : List (Except String EmailDraft)} {xs : List EmailDraft},
      sequenceE l = Except.ok xs → ∀ k : Nat, l[k]? = (xs[k]?).map Except.ok := by
  intro l
  induction l with
  | nil =>
    intro xs h k
    simp only [sequenceE, Except.ok.injEq] at h
    rw [← h]
    rfl
  | cons r rest ih =>
    intro xs h k
    cases r with
    | error e => exact absurd h (by simp [sequenceE])
    | ok a =>
      simp only [sequenceE] at h
      cases hr : sequenceE rest with
      | error e => rw [hr] at h; exact absurd h (by simp [Except.map])
      | ok ys =>
        rw [hr] at h
        simp only [Except.map, Except.ok.injEq] at h
        rw [← h]
        cases k with
        | zero => simp
        | succ n => simpa using ih hr n

lemma sequenceE_error_iff (l : List (Except String EmailDraft)) :
    (∃ msg, sequenceE l = Except.error msg) ↔ ∃ r ∈ l, r.isOk = false := by
  induction l with
  | nil =>
    simp [sequenceE]
  | cons r rest ih =>
    cases r with
    | error e =>
      simp only [sequenceE]
      constructor
      · intro _
        exact ⟨Except.error e, List.mem_cons_self _ _, rfl⟩
      · intro _
        exact ⟨e, rfl⟩
    | ok a =>
      simp only [sequenceE]
      constructor
      · rintro ⟨msg, hmsg⟩
        cases hr : sequenceE rest with
        | error e2 =>
          obtain ⟨r2, hr2, hr2f⟩ := ih.mp ⟨e2, hr⟩
          exact ⟨r2, List.mem_cons_of_mem _ hr2, hr2f⟩
        | ok ys => rw [hr] at hmsg; exact absurd hmsg (by simp [Except.map])
      · rintro ⟨r2, hr2, hfail⟩
        rcases List.mem_cons.mp hr2 with hhead | htail
        · rw [hhead] at hfail
          exact absurd hfail (by simp [Except.isOk, Except.toBool])
        · obtain ⟨msg, hmsg⟩ := ih.mpr ⟨r2, htail, hfail⟩
          exact ⟨msg, by rw [hmsg]; rfl⟩

/-- The claim's reading of a selected contact: a contact whose email property
is a non-null value belonging to the selection set (the code filters by
truthiness instead; the two agree whenever the selection set holds only
truthy values, which every reachable state guarantees). -/
def claimSelectedB (sel : Finset Json) (c : Json) : Bool :=
  match getField c "email".data with
  | some e => ¬ e = Json.null ∧ e ∈ sel
  | none => false

lemma truthy_ne_null {e : Json} (h : truthy e = true) : ¬ e = Json.null := by
  intro hn
  rw [hn] at h
  simp [truthy] at h

lemma contactsToEmail_eq_claim {s : AppState}
    (h4 : ∀ e ∈ s.selectedContacts, truthy e = true) :
    contactsToEmail s = s.contacts.filter (fun c => claimSelectedB s.selectedContacts c) := by
  unfold contactsToEmail
  apply List.filter_congr
  intro c _
  cases hf : getField c "email".data with
  | none => simp [claimSelectedB, hf]
  | some e =>
    simp only [claimSelectedB, hf]
    by_cases hm : e ∈ s.selectedContacts
    · have ht := h4 e hm
      simp [hm, ht, truthy_ne_null ht]
    · simp [hm]

lemma handleGenerateEmails_guardfalse {resps : Nat → List Char} {s : AppState}
    (hg : ¬ (s.resumeData = none ∨ s.purpose = "" ∨ s.selectedContacts = ∅)) :
    handleGenerateEmails resps s =
      match sequenceE (batchDrafts resps (contactsToEmail s)) with
      | Except.ok gens =>
        { s with
            error := none
            emails := gens.map (fun g =>
              { «to» := g.«to», subject := g.subject, body := g.body, sent := false })
            currentStep := Step.Review }
      | Except.error _ => { s with error := some genFailMsg, emails := [] } := by
  unfold handleGenerateEmails
  rw [if_neg hg]

lemma generateEmail_ok_to {c : Json} {rt : List Char} {g : EmailDraft}
    (h : generateEmailForContact c rt = Except.ok g) :
    g.«to» = getField c "email".data := by
  cases hp : Json.parse (cleanJson rt) with
  | none =>
    rw [generateEmail_of_parse_none c hp] at h
    exact absurd h (by simp)
  | some j =>
    rw [generateEmail_of_parse_some c hp] at h
    by_cases hn : j = Json.null
    · rw [if_pos hn] at h
      exact absurd h (by simp)
    · rw [if_neg hn] at h
      by_cases hcn : c = Json.null
      · rw [if_pos hcn] at h
        exact absurd h (by simp)
      · rw [if_neg hcn, Except.ok.injEq] at h
        rw [← h]

/-- **C3.**  Batch drafting over a selection whose members are all truthy
email values (as in every reachable state): writing N for the number of
contacts whose non-null email lies in the selection set, the step either
succeeds — every per-contact request succeeded — and then yields exactly N
drafted records, the record at each position having `sent = false` and its
recipient equal to the email property of the corresponding selected contact,
with the wizard advanced to Review and no error; or some per-contact request
fails, and then the whole batch fails: the email list is left empty, a
single error message is reported, and the wizard stays on its current step
(Select).  A single failing request and a failing batch are equivalent. -/
theorem claim_C3 (s : AppState) (resps : Nat → List Char)
    (h1 : ¬ s.resumeData = none) (h2 : ¬ s.purpose = "")
    (h3 : ¬ s.selectedContacts = ∅)
    (h4 : ∀ e ∈ s.selectedContacts, truthy e = true) :
    contactsToEmail s = s.contacts.filter (fun c => claimSelectedB s.selectedContacts c) ∧
    (∀ gens, sequenceE (batchDrafts resps (contactsToEmail s)) = Except.ok gens →
      (handleGenerateEmails resps s).emails.length =
        (s.contacts.filter (fun c => claimSelectedB s.selectedContacts c)).length ∧
      (∀ (k : Nat) (c : Json), (contactsToEmail s)[k]? = some c →
        ∃ em, (handleGenerateEmails resps s).emails[k]? = some em ∧
          em.sent = false ∧ em.«to» = getField c "email".data) ∧
      (handleGenerateEmails resps s).currentStep = Step.Review ∧
      (handleGenerateEmails resps s).error = none) ∧
    (∀ msg, sequenceE (batchDrafts resps (contactsToEmail s)) = Except.error msg →
      (handleGenerateEmails resps s).emails = [] ∧
      (handleGenerateEmails resps s).error = some genFailMsg ∧
      (handleGenerateEmails resps s).currentStep = s.currentStep) ∧
    ((∃ r ∈ batchDrafts resps (contactsToEmail s), r.isOk = false) ↔
      ∃ msg, sequenceE (batchDrafts resps (contactsToEmail s)) = Except.error msg) := by
  have hg : ¬ (s.resumeData = none ∨ s.purpose = "" ∨ s.selectedContacts = ∅) := by
    rintro (h | h | h)
    · exact h1 h
    · exact h2 h
    · exact h3 h
  refine ⟨contactsToEmail_eq_claim h4, ?_, ?_, (sequenceE_error_iff _).symm⟩
  · intro gens hs
    rw [handleGenerateEmails_guardfalse hg, hs]
    refine ⟨?_, ?_, rfl, rfl⟩
    · rw [List.length_map, sequenceE_ok_length hs, batchDrafts_length,
        contactsToEmail_eq_claim h4]
    · intro k c hk
      have hb := batchDrafts_get? (contactsToEmail s) resps k
      rw [hk] at hb
      simp only [Option.map_some'] at hb
      have hx := sequenceE_ok_get? hs k
      rw [hb] at hx
      cases hg2 : gens[k]? with
      | none => rw [hg2] at hx; exact absurd hx (by simp)
      | some g =>
        rw [hg2] at hx
        simp only [Option.map_some', Option.some.injEq] at hx
        refine ⟨{ «to» := g.«to», subject := g.subject, body := g.body, sent := false },
          ?_, rfl, ?_⟩
        · rw [List.getElem?_map, hg2]
          rfl
        · exact generateEmail_ok_to hx
  · intro msg hs
    rw [handleGenerateEmails_guardfalse hg, hs]
    exact ⟨rfl, rfl, rfl⟩

/-- A concrete Select-step state with one discovered contact, its email
selected, for the batch-drafting witness. -/
def s3ex : AppState :=
  { initialState [] with
      currentStep := Step.Select
      resumeData := some
        { name := "cv.pdf"
          mimeType := "application/pdf"
          data := "QUJD"
          skills := Json.arr []
          educationLevel := Json.str "Not found".data
          projects := Json.arr [] }
      university := "U"
      department := "D"
      contacts := [contactEx]
      selectedContacts := {Json.str "a@b".data} }

/-- The response environment for the drafting witness: every request gets a
well-formed subject/body object. -/
def resps3ex : Nat → List Char :=
  fun _ => "\x7b\"subject\": \"s\", \"body\": \"b\"\x7d".data

/-- **C3 witness**: drafting the one selected contact of `s3ex` yields
exactly one record (N = 1) and advances the wizard to Review. -/
theorem claim_C3_witness :
    (handleGenerateEmails resps3ex s3ex).emails.length =
      (s3ex.contacts.filter (fun c => claimSelectedB s3ex.selectedContacts c)).length ∧
    (handleGenerateEmails resps3ex s3ex).currentStep = Step.Review := by
  obtain ⟨_, hsucc, _, _⟩ := claim_C3 s3ex resps3ex (by decide) (by decide) (by decide)
    (by decide)
  obtain ⟨hlen, _, hstep, _⟩ := hsucc
    [{ «to» := some (Json.str "a@b".data)
       subject := some (Json.str ['s'])
       body := some (Json.str ['b']) }] rfl
  exact ⟨hlen, hstep⟩

/-- The selection-set invariant, in the strong (code-level) form: every
member of the selection set is the truthy email value of some current
contact. -/
def SelInv (s : AppState) : Prop :=
  ∀ e ∈ s.selectedContacts, ∃ c ∈ s.contacts,
    getField c "email".data = some e ∧ truthy e = true

lemma selectionInit_mem {found : List Json} {e : Json} :
    e ∈ selectionInit found ↔
      ∃ c ∈ found, getField c "email".data = some e ∧ truthy e = true := by
  unfold selectionInit
  rw [List.mem_toFinset, List.mem_filterMap]
  constructor
  · rintro ⟨c, hc, hmatch⟩
    cases hf : getField c "email".data with
    | none =>
      rw [hf] at hmatch
      exact absurd hmatch (by simp)
    | some e2 =>
      rw [hf] at hmatch
      have hmatch2 : (if truthy e2 = true then some e2 else none) = some e := hmatch
      by_cases ht : truthy e2 = true
      · rw [if_pos ht, Option.some.injEq] at hmatch2
        exact ⟨c, hc, by rw [hf, hmatch2], by rw [← hmatch2]; exact ht⟩
      · rw [if_neg ht] at hmatch2
        exact absurd hmatch2 (by simp)
  · rintro ⟨c, hc, hf, ht⟩
    refine ⟨c, hc, ?_⟩
    rw [hf]
    show (if truthy e = true then some e else none) = some e
    rw [if_pos ht]

lemma handleEmailChange_frame {i : Nat} {b : String} {s s' : AppState}
    (h : handleEmailChange i b s = some s') :
    s'.selectedContacts = s.selectedContacts ∧ s'.contacts = s.contacts := by
  unfold handleEmailChange at h
  by_cases hlt : i < s.emails.length
  · rw [dif_pos hlt, Option.some.injEq] at h
    rw [← h]
    exact ⟨rfl, rfl⟩
  · rw [dif_neg hlt] at h
    exact absurd h (by simp)

lemma handleGenerateEmails_frame (resps : Nat → List Char) (s : AppState) :
    (handleGenerateEmails resps s).selectedContacts = s.selectedContacts ∧
      (handleGenerateEmails resps s).contacts = s.contacts := by
  unfold handleGenerateEmails
  by_cases hg : s.resumeData = none ∨ s.purpose = "" ∨ s.selectedContacts = ∅
  · rw [if_pos hg]
    exact ⟨rfl, rfl⟩
  · rw [if_neg hg]
    cases hs : sequenceE (batchDrafts resps (contactsToEmail s)) with
    | ok gens => exact ⟨rfl, rfl⟩
    | error e => exact ⟨rfl, rfl⟩

lemma appTr_preserves_selInv {s s' : AppState} (htr : AppTr s s') (hinv : SelInv s) :
    SelInv s' := by
  cases htr with
  | setUniversity u s => exact hinv
  | setDepartment d s => exact hinv
  | setPurpose p s => exact hinv
  | badFile s => exact hinv
  | clearHistory s => exact hinv
  | send dates s => exact hinv
  | upload raw r s =>
    unfold handleFileUpload
    cases parseResume raw r with
    | ok d => exact hinv
    | error e => exact hinv
  | back s =>
    unfold handleBack
    cases hc : s.currentStep with
    | Input => exact hinv
    | Select => exact hinv
    | Review => exact hinv
  | edit i b s s' h =>
    intro e he
    rw [(handleEmailChange_frame h).1] at he
    obtain ⟨c, hc, hf, ht⟩ := hinv e he
    exact ⟨c, by rw [(handleEmailChange_frame h).2]; exact hc, hf, ht⟩
  | generate resps s =>
    intro e he
    rw [(handleGenerateEmails_frame resps s).1] at he
    obtain ⟨c, hc, hf, ht⟩ := hinv e he
    exact ⟨c, by rw [(handleGenerateEmails_frame resps s).2]; exact hc, hf, ht⟩
  | findC r s =>
    unfold handleFindContacts
    by_cases hg : s.resumeData = none ∨ s.university = "" ∨ s.department = ""
    · rw [if_pos hg]
      exact hinv
    · rw [if_neg hg]
      cases hf : findContacts r with
      | error e => exact hinv
      | ok found =>
        intro e he
        have he2 : e ∈ selectionInit found := he
        obtain ⟨c, hc, hfe, ht⟩ := selectionInit_mem.mp he2
        exact ⟨c, hc, hfe, ht⟩
  | toggle c s hmem =>
    unfold uiToggleContact
    cases hf : getField c "email".data with
    | none => exact hinv
    | some e2 =>
      show SelInv (if truthy e2 = true then handleContactSelection e2 s else s)
      by_cases ht : truthy e2 = true
      · rw [if_pos ht]
        intro e he
        unfold handleContactSelection at he
        by_cases hin : e2 ∈ s.selectedContacts
        · rw [if_pos hin] at he
          exact hinv e (Finset.mem_of_mem_erase he)
        · rw [if_neg hin] at he
          rcases Finset.mem_insert.mp he with heq | hold
          · exact ⟨c, hmem, by rw [hf, heq], by rw [heq]; exact ht⟩
          · exact hinv e hold
      · rw [if_neg ht]
        exact hinv

lemma reachable_selInv {s : AppState} (h : Reachable s) : SelInv s := by
  induction h with
  | init storedHistory =>
    intro e he
    exact absurd he (Finset.not_mem_empty e)
  | step _ htr ih => exact appTr_preserves_selInv htr ih

/-- **C7** (as amended).  The selection set:
(1) in every reachable state, each member of the selection set is the email
value of some current contact, and that value is non-null (indeed truthy);
(2) after a successful discovery from a state passing the input guard, the
selection set holds exactly the truthy email values of the discovered
contacts — non-null but also non-empty, which is where the original
"exactly the non-null emails" fails: a discovered contact with the non-null
empty-string email is excluded by the truthiness filter (see the
counterexample);
(3) the toggle event is a no-op for a contact whose email property is absent
or falsy, so such a contact can never enter the selection set;
(4) every email record the drafting step adds is addressed to the truthy
email value of some current contact — a contact lacking an email never
receives a drafted email. -/
theorem claim_C7 :
    (∀ s : AppState, Reachable s → ∀ e ∈ s.selectedContacts,
      ∃ c ∈ s.contacts, getField c "email".data = some e ∧ ¬ e = Json.null) ∧
    (∀ (r : List Char) (s : AppState) (found : List Json),
      ¬ (s.resumeData = none ∨ s.university = "" ∨ s.department = "") →
      findContacts r = Except.ok found →
      ∀ e : Json, e ∈ (handleFindContacts r s).1.selectedContacts ↔
        ∃ c ∈ found, getField c "email".data = some e ∧ truthy e = true) ∧
    (∀ (c : Json) (s : AppState),
      (∀ e, getField c "email".data = some e → truthy e = false) →
      uiToggleContact c s = s) ∧
    (∀ (resps : Nat → List Char) (s : AppState) (em : Email),
      em ∈ (handleGenerateEmails resps s).emails →
      em ∈ s.emails ∨ ∃ c ∈ s.contacts, ∃ e, getField c "email".data = some e ∧
        truthy e = true ∧ em.«to» = some e) := by
  refine ⟨?_, ?_, ?_, ?_⟩
  · intro s hr e he
    obtain ⟨c, hc, hf, ht⟩ := reachable_selInv hr e he
    exact ⟨c, hc, hf, truthy_ne_null ht⟩
  · intro r s found hg hf e
    unfold handleFindContacts
    rw [if_neg hg, hf]
    exact selectionInit_mem
  · intro c s hfalsy
    unfold uiToggleContact
    cases hf : getField c "email".data with
    | none => rfl
    | some e2 =>
      show (if truthy e2 = true then handleContactSelection e2 s else s) = s
      rw [if_neg (by simp [hfalsy e2 hf])]
  · intro resps s em hmem
    unfold handleGenerateEmails at hmem
    by_cases hg : s.resumeData = none ∨ s.purpose = "" ∨ s.selectedContacts = ∅
    · rw [if_pos hg] at hmem
      exact Or.inl hmem
    · rw [if_neg hg] at hmem
      cases hs : sequenceE (batchDrafts resps (contactsToEmail s)) with
      | error msg =>
        rw [hs] at hmem
        have hmem2 : em ∈ ([] : List Email) := hmem
        simp at hmem2
      | ok gens =>
        rw [hs] at hmem
        have hmem2 : em ∈ gens.map (fun g =>
            { «to» := g.«to», subject := g.subject, body := g.body, sent := false }) := hmem
        obtain ⟨g, hgm, hfg⟩ := List.mem_map.mp hmem2
        obtain ⟨k, hk⟩ := List.mem_iff_getElem?.mp hgm
        have hx := sequenceE_ok_get? hs k
        rw [hk] at hx
        have hb := batchDrafts_get? (contactsToEmail s) resps k
        rw [hb] at hx
        cases hc : (contactsToEmail s)[k]? with
        | none =>
          rw [hc] at hx
          simp at hx
        | some c =>
          rw [hc] at hx
          simp only [Option.map_some', Option.some.injEq] at hx
          have hcm : c ∈ contactsToEmail s := List.getElem?_mem hc
          unfold contactsToEmail at hcm
          have hcs := List.mem_filter.mp hcm
          cases hfe : getField c "email".data with
          | none =>
            have hp := hcs.2
            have hp2 : (match getField c "email".data with
                | some e => decide (truthy e = true ∧ e ∈ s.selectedContacts)
                | none => false) = true := hp
            rw [hfe] at hp2
            exact absurd hp2 (by simp)
          | some e =>
            have hp := hcs.2
            have hp2 : (match getField c "email".data with
                | some e => decide (truthy e = true ∧ e ∈ s.selectedContacts)
                | none => false) = true := hp
            rw [hfe] at hp2
            have hp3 : decide (truthy e = true ∧ e ∈ s.selectedContacts) = true := hp2
            rw [decide_eq_true_eq] at hp3
            refine Or.inr ⟨c, hcs.1, e, hfe, hp3.1, ?_⟩
            have hto := generateEmail_ok_to hx
            rw [← hfg]
            show g.«to» = some e
            rw [hto, hfe]

/-- A discovery response whose one contact passes the mandatory-field check
and has the non-null but empty-string email. -/
def respEmptyEmail : List Char :=
  "[\x7b\"name\": \"N\", \"title\": \"T\", \"researchInterests\": \"R\", \"email\": \"\"\x7d]".data

/-- The contact value `respEmptyEmail` parses to. -/
def contactEmptyEmail : Json :=
  Json.obj
    [("name".data, Json.str ['N']), ("title".data, Json.str ['T']),
      ("researchInterests".data, Json.str ['R']), ("email".data, Json.str [])]

/-- **C7 counterexample.**  From a guard-passing state, discovering a contact
whose email is the non-null empty string leaves the selection set empty, so
the selection set after discovery is not "exactly the non-null emails of the
discovered contacts": the truthiness filter of the source also drops
falsy (empty-string) emails. -/
theorem claim_C7_counterexample :
    (handleFindContacts respEmptyEmail s3ex).1.contacts = [contactEmptyEmail] ∧
    getField contactEmptyEmail "email".data = some (Json.str []) ∧
    ¬ Json.str [] = Json.null ∧
    ¬ Json.str [] ∈ (handleFindContacts respEmptyEmail s3ex).1.selectedContacts := by
  refine ⟨?_, ?_, ?_, ?_⟩
  · decide
  · decide
  · decide
  · decide

/-- A reachable state chain for the C7 witness: set the university and the
department, upload a resume (empty-object analysis response), then discover
one contact with a truthy email. -/
def w0ex : AppState := initialState []

def w1ex : AppState := { w0ex with university := "U" }

def w2ex : AppState := { w1ex with department := "D" }

def rawEx : RawFile := ⟨"cv.pdf", "application/pdf", "QUJD"⟩

def w3ex : AppState := handleFileUpload rawEx "\x7b\x7d".data w2ex

def goodDiscoveryResp : List Char :=
  "[\x7b\"name\": \"N\", \"title\": \"T\", \"researchInterests\": \"R\", \"email\": \"a@b\"\x7d]".data

def w4ex : AppState := (handleFindContacts goodDiscoveryResp w3ex).1

lemma w4ex_reachable : Reachable w4ex :=
  Reachable.step
    (Reachable.step
      (Reachable.step
        (Reachable.step (Reachable.init []) (AppTr.setUniversity "U" w0ex))
        (AppTr.setDepartment "D" w1ex))
      (AppTr.upload rawEx "\x7b\x7d".data w2ex))
    (AppTr.findC goodDiscoveryResp w3ex)

/-- **C7 witness**: in the reachable state `w4ex` the selected email `a@b`
is the non-null email of one of the current contacts. -/
theorem claim_C7_witness :
    ∃ c ∈ w4ex.contacts, getField c "email".data = some (Json.str "a@b".data) ∧
      ¬ Json.str "a@b".data = Json.null :=
  claim_C7.1 w4ex w4ex_reachable (Json.str "a@b".data) (by decide)
